import Mathlib

/-!
Verification of the vertical temperature extrapolator of
`src/post_proc/py/interpolations/to_Lorenz.py` (function `ext_temperature`).

The xarray `DataArray` holding the temperature field is modelled by `TField`:
`levels` is the stored `level` coordinate (pressure in hPa) in storage order,
and `data` holds one row of cells per stored level, in the same storage order.
A missing cell (NaN in the original) is `none`.  The `standard_height`
coordinate attached to every level is an external function of pressure
(`pressure_to_height_std` from metpy); it enters the extrapolator only through
lookups at a level's pressure, so it is modelled as a parameter `h : ℚ → ℚ`.

Label-based selection (`sel(level=lev)`, `.loc[dict(level=lev)]`) is modelled
by `List.indexOf` on the stored coordinate; positional selection
(`isel(level=i-1)`) by direct list indexing, with Python's negative index `-1`
wrapping to the last position (`iselIdx`).  Where the Python code would raise
(selecting a label that is absent) the model reads an empty row, which makes
the per-level guard false; every theorem that depends on a selection carries
the membership hypotheses that make the model agree with the code.
-/

namespace ToLorenz

/-- The sentinel value the code substitutes for NaN: `fillna(-99999)`. -/
def sentinel : ℚ := -99999

/-- A temperature slab on pressure levels: `levels` is the stored `level`
coordinate in storage order, `data` the rows of cells per stored level.
A missing cell is `none`. -/
structure TField where
  levels : List ℚ
  data : List (List (Option ℚ))
deriving DecidableEq, Repr

/-- Insertion step of the ascending sort (`np.sort`). -/
def insertAsc (x : ℚ) : List ℚ → List ℚ
  | [] => [x]
  | y :: ys => if x ≤ y then x :: y :: ys else y :: insertAsc x ys

/-- Ascending sort of the pressure-level list, `plevs_sorted = np.sort(plevs)`. -/
def sortAsc (l : List ℚ) : List ℚ := l.foldr insertAsc []

/-- Python list/array index `i-1`: for `i = 0` the negative index `-1` wraps
to the last position `n-1`; otherwise it is `i-1`. -/
def iselIdx (n i : Nat) : Nat := if i = 0 then n - 1 else i - 1

/-- Lapse-rate table of the top-down loop:
`lev >= 226.32 → 6.5`, `54.74 < lev < 226.32 → 0`, otherwise `-1`. -/
def lapse1 (lev : ℚ) : ℚ :=
  if 226.32 ≤ lev then 6.5 else if lev < 226.32 ∧ 54.74 < lev then 0 else -1

/-- Lapse-rate table of the bottom-up loop: `lev >= 8.68 → -2.8`, else `0`. -/
def lapse2 (lev : ℚ) : ℚ :=
  if 8.68 ≤ lev then -2.8 else 0

/-- The missing-value test `np.isnan(t_p.values).any()`: does the row contain a missing cell? -/
def hasNaN (row : List (Option ℚ)) : Bool := row.any fun v => v.isNone

/-- Label-based selection `t_isob_z.sel(level=lev)`. -/
def selRow (F : TField) (lev : ℚ) : List (Option ℚ) :=
  F.data.getD (F.levels.indexOf lev) []

/-- Positional selection `t_isob_z.isel(level=j)`. -/
def iselRow (F : TField) (j : Nat) : List (Option ℚ) :=
  F.data.getD j []

/-- The cell at stored level position `l`, horizontal position `c`. -/
def cell (F : TField) (l c : Nat) : Option ℚ :=
  (F.data.getD l []).getD c none

/-- One row update, `dummy.where(dummy != -99999, extp_temp)` where
`dummy = t_p.fillna(-99999)`, `nans = dummy.where(dummy == -99999)` and
`extp_temp = nans + 99999 + t_seed + dz*lapse`:  a cell whose `dummy` value
differs from the sentinel keeps it; otherwise the cell receives the
same-position seed value plus `dz*lapse` (`dh` is `dz`, the seed level's
standard height minus the current level's), staying NaN if the seed is NaN. -/
def fillRow (lapse dh : ℚ) : List (Option ℚ) → List (Option ℚ) → List (Option ℚ)
  | [], _ => []
  | _ :: _, [] => []
  | v :: vs, s :: ss =>
    (if v.getD sentinel ≠ sentinel then some (v.getD sentinel)
     else s.map fun sv => sv + dh * lapse) :: fillRow lapse dh vs ss

/-- One iteration of the first loop (top-down pass) at loop counter `i` over
`plevs_sorted = ps`: if the level `ps[i]` has a NaN and its pressure exceeds
50 hPa, overwrite the row of that level with the extrapolation seeded from the
positionally selected row `isel(level=i-1)`, using `lapse1`. -/
def pass1Step (h : ℚ → ℚ) (ps : List ℚ) (F : TField) (i : Nat) : TField :=
  if hasNaN (selRow F (ps.getD i 0)) = true ∧ 50 < ps.getD i 0 then
    { F with
        data := F.data.set (F.levels.indexOf (ps.getD i 0))
          (fillRow (lapse1 (ps.getD i 0))
            (h (F.levels.getD (iselIdx F.data.length i) 0) - h (ps.getD i 0))
            (selRow F (ps.getD i 0))
            (iselRow F (iselIdx F.data.length i))) }
  else F

/-- One iteration of the second loop (bottom-up pass) at loop counter `i` over
`bottom_top = plevs_sorted[::-1] = bt`: if the level `bt[i]` has a NaN and its
pressure is below 50 hPa, overwrite its row with the extrapolation seeded from
the label-selected row `sel(level=bt[i-1])`, using `lapse2`. -/
def pass2Step (h : ℚ → ℚ) (bt : List ℚ) (F : TField) (i : Nat) : TField :=
  if hasNaN (selRow F (bt.getD i 0)) = true ∧ bt.getD i 0 < 50 then
    { F with
        data := F.data.set (F.levels.indexOf (bt.getD i 0))
          (fillRow (lapse2 (bt.getD i 0))
            (h (bt.getD (iselIdx bt.length i) 0) - h (bt.getD i 0))
            (selRow F (bt.getD i 0))
            (selRow F (bt.getD (iselIdx bt.length i) 0))) }
  else F

/-- The first loop: `for i in range(len(plevs_sorted))`. -/
def pass1 (h : ℚ → ℚ) (ps : List ℚ) (F : TField) : TField :=
  (List.range ps.length).foldl (pass1Step h ps) F

/-- The second loop: `for i in range(len(bottom_top))`. -/
def pass2 (h : ℚ → ℚ) (bt : List ℚ) (F : TField) : TField :=
  (List.range bt.length).foldl (pass2Step h bt) F

/-- The extrapolator `ext_temperature`: the top-down loop over `np.sort(plevs)` followed by the
bottom-up loop over the reversed sorted levels. -/
def ext_temperature (h : ℚ → ℚ) (F : TField) (plevs : List ℚ) : TField :=
  pass2 h (sortAsc plevs).reverse (pass1 h (sortAsc plevs) F)

/-- A sample (non-physical but strictly antitone) standard-height function used
for concrete instances: height decreases as pressure grows. -/
def hdemo : ℚ → ℚ := fun p => -p

/-! ### Generic list lemmas -/

theorem getD_set_self {α : Type*} (L : List α) (k : Nat) (r d : α)
    (hk : k < L.length) : (L.set k r).getD k d = r := by
  rw [List.getD_eq_getElem?_getD, List.getElem?_set_self hk]
  rfl

theorem getD_set_ne {α : Type*} (L : List α) (k l : Nat) (r d : α)
    (hkl : k ≠ l) : (L.set k r).getD l d = L.getD l d := by
  rw [List.getD_eq_getElem?_getD, List.getElem?_set_ne hkl,
    ← List.getD_eq_getElem?_getD]

theorem getD_mem {α : Type*} (L : List α) (l : Nat) (d : α)
    (hl : l < L.length) : L.getD l d ∈ L := by
  rw [List.getD_eq_getElem?_getD, List.getElem?_eq_getElem hl]
  exact List.getElem_mem hl

theorem lt_length_of_getD_ne {α : Type*} (L : List α) (c : Nat) (d : α)
    (h : L.getD c d ≠ d) : c < L.length := by
  by_contra hc
  exact h (List.getD_eq_default L d (Nat.le_of_not_lt hc))

theorem indexOf_getD_of_nodup : ∀ (L : List ℚ), L.Nodup → ∀ k, k < L.length →
    L.indexOf (L.getD k 0) = k
  | [], _, k, hk => absurd hk (by simp)
  | x :: xs, hnd, 0, _ => by
      simp [List.indexOf_cons_self x xs]
  | x :: xs, hnd, (k+1), hk => by
      have hk' : k < xs.length := by simpa using hk
      have hmem : xs.getD k 0 ∈ xs := getD_mem xs k 0 hk'
      have hne : xs.getD k 0 ≠ x := by
        intro hEq
        exact (List.nodup_cons.mp hnd).1 (hEq ▸ hmem)
      have hrec := indexOf_getD_of_nodup xs (List.nodup_cons.mp hnd).2 k hk'
      simp only [List.getD_cons_succ]
      rw [List.indexOf_cons_ne xs (Ne.symm hne), hrec]

theorem getD_reverse (L : List ℚ) (k : Nat) (hk : k < L.length) :
    L.reverse.getD k 0 = L.getD (L.length - 1 - k) 0 := by
  have hk' : k < L.reverse.length := by simpa using hk
  have hlt : L.length - 1 - k < L.length := by omega
  rw [List.getD_eq_getElem?_getD, List.getElem?_eq_getElem hk',
    List.getElem_reverse, List.getD_eq_getElem?_getD,
    List.getElem?_eq_getElem hlt]

/-! ### Lemmas about the row-filling kernel -/

theorem fillRow_length (lapse dh : ℚ) : ∀ xs ys : List (Option ℚ),
    (fillRow lapse dh xs ys).length = min xs.length ys.length
  | [], ys => by simp [fillRow]
  | v :: vs, [] => by simp [fillRow]
  | v :: vs, s :: ss => by
      simp only [fillRow, List.length_cons, fillRow_length lapse dh vs ss]
      omega

theorem fillRow_getD_keep (lapse dh : ℚ) : ∀ (xs ys : List (Option ℚ)) (c : Nat)
    (x : ℚ), xs.getD c none = some x → x ≠ sentinel → c < ys.length →
    (fillRow lapse dh xs ys).getD c none = some x
  | [], _, c, x, hx, _, _ => by simp at hx
  | v :: vs, [], c, x, _, _, hc => by simp at hc
  | v :: vs, s :: ss, 0, x, hx, hxs, _ => by
      simp only [List.getD_cons_zero] at hx
      subst hx
      simp [fillRow, hxs]
  | v :: vs, s :: ss, (c+1), x, hx, hxs, hc => by
      simp only [List.getD_cons_succ] at hx ⊢
      exact fillRow_getD_keep lapse dh vs ss c x hx hxs (by simpa using hc)

theorem fillRow_getD_fill (lapse dh : ℚ) : ∀ (xs ys : List (Option ℚ)) (c : Nat),
    c < xs.length → c < ys.length → (xs.getD c none).getD sentinel = sentinel →
    (fillRow lapse dh xs ys).getD c none
      = (ys.getD c none).map fun sv => sv + dh * lapse
  | [], _, c, hc, _, _ => by simp at hc
  | v :: vs, [], c, _, hc, _ => by simp at hc
  | v :: vs, s :: ss, 0, _, _, hv => by
      simp only [List.getD_cons_zero] at hv ⊢
      simp [fillRow, hv]
  | v :: vs, s :: ss, (c+1), hc, hc', hv => by
      simp only [List.getD_cons_succ] at hv ⊢
      exact fillRow_getD_fill lapse dh vs ss c (by simpa using hc)
        (by simpa using hc') hv

/-! ### Lemmas about the missing-value test -/

theorem hasNaN_false_of : ∀ row : List (Option ℚ),
    (∀ c, c < row.length → (row.getD c none).isSome) → hasNaN row = false
  | [], _ => rfl
  | v :: vs, hall => by
      have h0 := hall 0 (by simp)
      simp only [List.getD_cons_zero] at h0
      simp only [hasNaN, List.any_cons, Bool.or_eq_false_iff]
      constructor
      · cases v with
        | none => simp at h0
        | some x => rfl
      · exact hasNaN_false_of vs fun c hc => by
          simpa using hall (c+1) (by simpa using hc)

theorem exists_none_of_hasNaN : ∀ row : List (Option ℚ), hasNaN row = true →
    ∃ c, c < row.length ∧ row.getD c none = none
  | [], h => by simp [hasNaN] at h
  | v :: vs, h => by
      simp only [hasNaN, List.any_cons, Bool.or_eq_true] at h
      rcases h with h | h
      · refine ⟨0, by simp, ?_⟩
        cases v with
        | none => rfl
        | some x => simp at h
      · obtain ⟨c, hc, hcell⟩ := exists_none_of_hasNaN vs h
        exact ⟨c + 1, by simpa using hc, by simpa using hcell⟩

theorem hasNaN_of_getD_none : ∀ (row : List (Option ℚ)) (c : Nat),
    c < row.length → row.getD c none = none → hasNaN row = true
  | [], c, hc, _ => by simp at hc
  | v :: vs, 0, _, hv => by
      simp only [List.getD_cons_zero] at hv
      subst hv
      rfl
  | v :: vs, (c+1), hc, hv => by
      simp only [List.getD_cons_succ] at hv
      have := hasNaN_of_getD_none vs c (by simpa using hc) hv
      simp [hasNaN] at this ⊢
      exact Or.inr this

theorem getD_isSome_of_hasNaN_false (row : List (Option ℚ)) (c : Nat)
    (h : hasNaN row = false) (hc : c < row.length) :
    (row.getD c none).isSome := by
  by_contra hs
  have : row.getD c none = none := by
    cases hrow : row.getD c none with
    | none => rfl
    | some x => rw [hrow] at hs; simp at hs
  rw [hasNaN_of_getD_none row c hc this] at h
  cases h

/-! ### Fold lemmas -/

theorem foldl_range_inv {σ : Type*} (f : σ → Nat → σ) (P : Nat → σ → Prop) :
    ∀ (n : Nat) (s : σ), P 0 s →
      (∀ k t, k < n → P k t → P (k+1) (f t k)) →
      P n ((List.range n).foldl f s)
  | 0, s, h0, _ => by simpa using h0
  | (n+1), s, h0, hstep => by
      rw [List.range_succ, List.foldl_append]
      exact hstep n _ (Nat.lt_succ_self n)
        (foldl_range_inv f P n s h0 fun k t hk ht =>
          hstep k t (Nat.lt_succ_of_lt hk) ht)

theorem foldl_fix {σ α : Type*} (f : σ → α → σ) (s : σ) :
    ∀ l : List α, (∀ a ∈ l, f s a = s) → l.foldl f s = s
  | [], _ => rfl
  | a :: l, hfix => by
      rw [List.foldl_cons, hfix a (List.mem_cons_self a l)]
      exact foldl_fix f s l fun b hb => hfix b (List.mem_cons_of_mem a hb)

/-! ### The sort is a permutation -/

theorem insertAsc_perm (x : ℚ) : ∀ l : List ℚ, List.Perm (insertAsc x l) (x :: l)
  | [] => List.Perm.refl _
  | y :: ys => by
      by_cases hxy : x ≤ y
      · simp [insertAsc, hxy]
      · simp only [insertAsc, if_neg hxy]
        exact ((insertAsc_perm x ys).cons y).trans (List.Perm.swap x y ys)

theorem sortAsc_perm : ∀ l : List ℚ, List.Perm (sortAsc l) l
  | [] => List.Perm.refl _
  | x :: xs =>
      (insertAsc_perm x (sortAsc xs)).trans ((sortAsc_perm xs).cons x)

theorem length_sortAsc (l : List ℚ) : (sortAsc l).length = l.length :=
  (sortAsc_perm l).length_eq

theorem mem_sortAsc {a : ℚ} {l : List ℚ} : a ∈ sortAsc l ↔ a ∈ l :=
  (sortAsc_perm l).mem_iff

/-! ### Step-level unfoldings -/

theorem pass1Step_of_not (h : ℚ → ℚ) (ps : List ℚ) (F : TField) (i : Nat)
    (hg : ¬(hasNaN (selRow F (ps.getD i 0)) = true ∧ 50 < ps.getD i 0)) :
    pass1Step h ps F i = F := by
  rw [pass1Step, if_neg hg]

theorem pass1Step_of_gate (h : ℚ → ℚ) (ps : List ℚ) (F : TField) (i : Nat)
    (hg : hasNaN (selRow F (ps.getD i 0)) = true ∧ 50 < ps.getD i 0) :
    pass1Step h ps F i
      = { F with
            data := F.data.set (F.levels.indexOf (ps.getD i 0))
              (fillRow (lapse1 (ps.getD i 0))
                (h (F.levels.getD (iselIdx F.data.length i) 0) - h (ps.getD i 0))
                (selRow F (ps.getD i 0))
                (iselRow F (iselIdx F.data.length i))) } := by
  rw [pass1Step, if_pos hg]

theorem pass2Step_of_not (h : ℚ → ℚ) (bt : List ℚ) (F : TField) (i : Nat)
    (hg : ¬(hasNaN (selRow F (bt.getD i 0)) = true ∧ bt.getD i 0 < 50)) :
    pass2Step h bt F i = F := by
  rw [pass2Step, if_neg hg]

theorem pass2Step_of_gate (h : ℚ → ℚ) (bt : List ℚ) (F : TField) (i : Nat)
    (hg : hasNaN (selRow F (bt.getD i 0)) = true ∧ bt.getD i 0 < 50) :
    pass2Step h bt F i
      = { F with
            data := F.data.set (F.levels.indexOf (bt.getD i 0))
              (fillRow (lapse2 (bt.getD i 0))
                (h (bt.getD (iselIdx bt.length i) 0) - h (bt.getD i 0))
                (selRow F (bt.getD i 0))
                (selRow F (bt.getD (iselIdx bt.length i) 0))) } := by
  rw [pass2Step, if_pos hg]

/-! ### Claim theorems -/

/-- Claim C2 (confirmed): in the top-down pass, a level is filled only when its
row has a missing cell and its pressure strictly exceeds 50 hPa; when it acts,
the written row is the `fillRow` extrapolation using the lapse rate of the
current level's band: `6.5` for pressure at least `226.32` hPa, `0` strictly
between `54.74` and `226.32` hPa, and `-1` otherwise. -/
theorem C2_topdown_gate_lapse (h : ℚ → ℚ) (ps : List ℚ) (F : TField) (i : Nat) :
    (¬(hasNaN (selRow F (ps.getD i 0)) = true ∧ 50 < ps.getD i 0) →
        pass1Step h ps F i = F)
    ∧ (hasNaN (selRow F (ps.getD i 0)) = true ∧ 50 < ps.getD i 0 →
        (pass1Step h ps F i).data
          = F.data.set (F.levels.indexOf (ps.getD i 0))
              (fillRow (lapse1 (ps.getD i 0))
                (h (F.levels.getD (iselIdx F.data.length i) 0) - h (ps.getD i 0))
                (selRow F (ps.getD i 0))
                (iselRow F (iselIdx F.data.length i))))
    ∧ (226.32 ≤ ps.getD i 0 → lapse1 (ps.getD i 0) = 6.5)
    ∧ (54.74 < ps.getD i 0 → ps.getD i 0 < 226.32 → lapse1 (ps.getD i 0) = 0)
    ∧ (ps.getD i 0 ≤ 54.74 → lapse1 (ps.getD i 0) = -1) := by
  refine ⟨pass1Step_of_not h ps F i, fun hg => ?_, fun hb => ?_,
    fun hb1 hb2 => ?_, fun hb => ?_⟩
  · rw [pass1Step_of_gate h ps F i hg]
  · rw [lapse1, if_pos hb]
  · rw [lapse1, if_neg (by linarith), if_pos ⟨hb2, hb1⟩]
  · rw [lapse1, if_neg (by linarith), if_neg (by rintro ⟨_, h54⟩; linarith)]

theorem C2_topdown_gate_lapse_witness :
    pass1Step hdemo [1000] ⟨[1000], [[some 7]]⟩ 0 = ⟨[1000], [[some 7]]⟩
    ∧ (pass1Step hdemo [300, 1000] ⟨[300, 1000], [[none], [some 290]]⟩ 0).data
        = [[some (-4260)], [some 290]]
    ∧ lapse1 1000 = 6.5 ∧ lapse1 100 = 0 ∧ lapse1 20 = -1 := by
  refine ⟨(C2_topdown_gate_lapse hdemo [1000] ⟨[1000], [[some 7]]⟩ 0).1
      (by norm_num [selRow, hasNaN, List.indexOf_cons]), ?_,
    (C2_topdown_gate_lapse hdemo [1000] ⟨[1000], [[some 7]]⟩ 0).2.2.1
      (by norm_num),
    (C2_topdown_gate_lapse hdemo [100] ⟨[100], [[some 7]]⟩ 0).2.2.2.1
      (by norm_num) (by norm_num),
    (C2_topdown_gate_lapse hdemo [20] ⟨[20], [[some 7]]⟩ 0).2.2.2.2
      (by norm_num)⟩
  have hmain := (C2_topdown_gate_lapse hdemo [300, 1000]
      ⟨[300, 1000], [[none], [some 290]]⟩ 0).2.1
    (by norm_num [selRow, hasNaN, List.indexOf_cons])
  rw [hmain]
  norm_num [selRow, iselRow, iselIdx, fillRow, lapse1, sentinel, hdemo,
    List.indexOf_cons]

/-- Claim C3 (confirmed): in the bottom-up pass, a level is filled only when
its row has a missing cell and its pressure is strictly below 50 hPa; when it
acts, the written row is the `fillRow` extrapolation using the lapse rate
`-2.8` for pressure at least `8.68` hPa and `0` otherwise. -/
theorem C3_bottomup_gate_lapse (h : ℚ → ℚ) (bt : List ℚ) (F : TField) (i : Nat) :
    (¬(hasNaN (selRow F (bt.getD i 0)) = true ∧ bt.getD i 0 < 50) →
        pass2Step h bt F i = F)
    ∧ (hasNaN (selRow F (bt.getD i 0)) = true ∧ bt.getD i 0 < 50 →
        (pass2Step h bt F i).data
          = F.data.set (F.levels.indexOf (bt.getD i 0))
              (fillRow (lapse2 (bt.getD i 0))
                (h (bt.getD (iselIdx bt.length i) 0) - h (bt.getD i 0))
                (selRow F (bt.getD i 0))
                (selRow F (bt.getD (iselIdx bt.length i) 0))))
    ∧ (8.68 ≤ bt.getD i 0 → lapse2 (bt.getD i 0) = -2.8)
    ∧ (bt.getD i 0 < 8.68 → lapse2 (bt.getD i 0) = 0) := by
  refine ⟨pass2Step_of_not h bt F i, fun hg => ?_, fun hb => ?_, fun hb => ?_⟩
  · rw [pass2Step_of_gate h bt F i hg]
  · rw [lapse2, if_pos hb]
  · rw [lapse2, if_neg (by linarith)]

theorem C3_bottomup_gate_lapse_witness :
    pass2Step hdemo [1000, 30, 10] ⟨[10, 30, 1000], [[some 210], [none], [some 290]]⟩ 0
      = ⟨[10, 30, 1000], [[some 210], [none], [some 290]]⟩
    ∧ (pass2Step hdemo [1000, 30, 10]
        ⟨[10, 30, 1000], [[some 210], [none], [some 290]]⟩ 1).data
      = [[some 210], [some 3006], [some 290]]
    ∧ lapse2 30 = -2.8 ∧ lapse2 5 = 0 := by
  refine ⟨(C3_bottomup_gate_lapse hdemo [1000, 30, 10]
      ⟨[10, 30, 1000], [[some 210], [none], [some 290]]⟩ 0).1
      (by norm_num [selRow, hasNaN, List.indexOf_cons]), ?_,
    (C3_bottomup_gate_lapse hdemo [30] ⟨[30], [[some 7]]⟩ 0).2.2.1 (by norm_num),
    (C3_bottomup_gate_lapse hdemo [5] ⟨[5], [[some 7]]⟩ 0).2.2.2 (by norm_num)⟩
  have hmain := (C3_bottomup_gate_lapse hdemo [1000, 30, 10]
      ⟨[10, 30, 1000], [[some 210], [none], [some 290]]⟩ 1).2.1
    (by norm_num [selRow, hasNaN, List.indexOf_cons])
  rw [hmain]
  norm_num [selRow, iselIdx, fillRow, lapse2, sentinel, hdemo, List.indexOf_cons]

/-- Claim C7 (code_bug): a gap at the very first level of the top-down pass
(the lowest pressure, which has no predecessor in the iteration) is NOT left
missing: the Python index `i-1 = -1` wraps around, so the gap is filled from
the LAST stored level.  Here the 300 hPa gap is filled with
`290 + (hdemo 1000 - hdemo 300) * 6.5 = -4260`, seeded from the 1000 hPa row. -/
theorem C7_wraparound_fill :
    ext_temperature hdemo ⟨[300, 1000], [[none], [some 290]]⟩ [300, 1000]
      = ⟨[300, 1000], [[some (-4260)], [some 290]]⟩
    ∧ (cell (ext_temperature hdemo ⟨[300, 1000], [[none], [some 290]]⟩
        [300, 1000]) 0 0).isSome
    ∧ (-4260 : ℚ) = 290 + (hdemo 1000 - hdemo 300) * lapse1 300 := by
  have hrun : ext_temperature hdemo ⟨[300, 1000], [[none], [some 290]]⟩ [300, 1000]
      = ⟨[300, 1000], [[some (-4260)], [some 290]]⟩ := by
    norm_num [ext_temperature, pass1, pass2, sortAsc, insertAsc, pass1Step,
      pass2Step, hasNaN, selRow, iselRow, iselIdx, fillRow, lapse1, lapse2,
      sentinel, hdemo, List.indexOf_cons, List.range_succ]
  refine ⟨hrun, ?_, by norm_num [hdemo, lapse1]⟩
  rw [hrun]
  rfl

/-- Claim C8 (confirmed): on a field with no missing cell, both passes skip
every level, so `ext_temperature` is the identity; in particular running it
twice returns the field unchanged. -/
theorem C8_identity_on_full (h : ℚ → ℚ) (F : TField) (plevs : List ℚ)
    (hfull : ∀ r ∈ F.data, hasNaN r = false) :
    ext_temperature h F plevs = F
    ∧ ext_temperature h (ext_temperature h F plevs) plevs = F := by
  have hsel : ∀ lev : ℚ, hasNaN (selRow F lev) = false := by
    intro lev
    rw [selRow]
    rcases Nat.lt_or_ge (F.levels.indexOf lev) F.data.length with hlt | hge
    · exact hfull _ (getD_mem _ _ _ hlt)
    · rw [List.getD_eq_default _ _ hge]
      rfl
  have hselD : ∀ j : Nat, hasNaN (F.data.getD j []) = false := by
    intro j
    rcases Nat.lt_or_ge j F.data.length with hlt | hge
    · exact hfull _ (getD_mem _ _ _ hlt)
    · rw [List.getD_eq_default _ _ hge]
      rfl
  have h1 : ∀ ps : List ℚ, pass1 h ps F = F := by
    intro ps
    refine foldl_fix _ _ _ fun i _ => pass1Step_of_not h ps F i ?_
    rintro ⟨hNaN, -⟩
    rw [hsel] at hNaN
    cases hNaN
  have h2 : ∀ bt : List ℚ, pass2 h bt F = F := by
    intro bt
    refine foldl_fix _ _ _ fun i _ => pass2Step_of_not h bt F i ?_
    rintro ⟨hNaN, -⟩
    rw [hsel] at hNaN
    cases hNaN
  have hid : ext_temperature h F plevs = F := by
    rw [ext_temperature, h1, h2]
  exact ⟨hid, by rw [hid, hid]⟩

theorem C8_identity_on_full_witness :
    ext_temperature hdemo ⟨[10, 1000], [[some 1], [some 2]]⟩ [10, 1000]
      = ⟨[10, 1000], [[some 1], [some 2]]⟩
    ∧ ext_temperature hdemo
        (ext_temperature hdemo ⟨[10, 1000], [[some 1], [some 2]]⟩ [10, 1000])
        [10, 1000]
      = ⟨[10, 1000], [[some 1], [some 2]]⟩ :=
  C8_identity_on_full hdemo ⟨[10, 1000], [[some 1], [some 2]]⟩ [10, 1000]
    (by simp [hasNaN])

/-- Claim C9 as stated is false: with an empty target pressure-level list
`ext_temperature` does not fail fast; both loops run zero iterations and the
input field is returned as output. -/
theorem C9_counterexample_empty_levels :
    ext_temperature hdemo ⟨[100], [[some 5]]⟩ [] = ⟨[100], [[some 5]]⟩ := rfl

/-- Claim C9 (corrected): on an empty pressure-level list `ext_temperature`
performs no work at all and returns its input field unchanged — it neither
fails nor produces a distinct output. -/
theorem C9_amended_empty_noop (h : ℚ → ℚ) (F : TField) :
    ext_temperature h F [] = F := rfl

/-- Claim C4 (confirmed): any missing cell filled by either pass receives the
same-position seed value plus `(seed height - current height) * lapse`, where
the seed is the row the pass reads (positional `i-1` for the top-down pass,
label `bt[i-1]` for the bottom-up pass) and the heights are the standard
heights of the seed level and the current level. -/
theorem C4_fill_formula :
    (∀ (h : ℚ → ℚ) (ps : List ℚ) (F : TField) (i c : Nat) (sv : ℚ),
      50 < ps.getD i 0 →
      F.levels.indexOf (ps.getD i 0) < F.data.length →
      c < (selRow F (ps.getD i 0)).length →
      (selRow F (ps.getD i 0)).getD c none = none →
      c < (iselRow F (iselIdx F.data.length i)).length →
      (iselRow F (iselIdx F.data.length i)).getD c none = some sv →
      cell (pass1Step h ps F i) (F.levels.indexOf (ps.getD i 0)) c
        = some (sv + (h (F.levels.getD (iselIdx F.data.length i) 0)
            - h (ps.getD i 0)) * lapse1 (ps.getD i 0)))
    ∧ (∀ (h : ℚ → ℚ) (bt : List ℚ) (F : TField) (i c : Nat) (sv : ℚ),
      bt.getD i 0 < 50 →
      F.levels.indexOf (bt.getD i 0) < F.data.length →
      c < (selRow F (bt.getD i 0)).length →
      (selRow F (bt.getD i 0)).getD c none = none →
      c < (selRow F (bt.getD (iselIdx bt.length i) 0)).length →
      (selRow F (bt.getD (iselIdx bt.length i) 0)).getD c none = some sv →
      cell (pass2Step h bt F i) (F.levels.indexOf (bt.getD i 0)) c
        = some (sv + (h (bt.getD (iselIdx bt.length i) 0)
            - h (bt.getD i 0)) * lapse2 (bt.getD i 0))) := by
  constructor
  · intro h ps F i c sv h50 hli hc hmiss hcs hseed
    rw [pass1Step_of_gate h ps F i
      ⟨hasNaN_of_getD_none _ c hc hmiss, h50⟩]
    rw [cell]
    rw [getD_set_self _ _ _ _ hli]
    rw [fillRow_getD_fill _ _ _ _ c hc hcs (by rw [hmiss]; rfl), hseed]
    rfl
  · intro h bt F i c sv h50 hli hc hmiss hcs hseed
    rw [pass2Step_of_gate h bt F i
      ⟨hasNaN_of_getD_none _ c hc hmiss, h50⟩]
    rw [cell]
    rw [getD_set_self _ _ _ _ hli]
    rw [fillRow_getD_fill _ _ _ _ c hc hcs (by rw [hmiss]; rfl), hseed]
    rfl

theorem C4_fill_formula_witness :
    cell (pass1Step hdemo [200, 600, 1000]
        ⟨[200, 600, 1000], [[some 250], [none], [some 280]]⟩ 1) 1 0 = some 2850
    ∧ cell (pass2Step hdemo [1000, 30, 10]
        ⟨[10, 30, 1000], [[some 210], [none], [some 290]]⟩ 1) 1 0 = some 3006 := by
  constructor
  · have hmain := C4_fill_formula.1 hdemo [200, 600, 1000]
      ⟨[200, 600, 1000], [[some 250], [none], [some 280]]⟩ 1 0 250
      (by norm_num)
      (by norm_num [List.indexOf_cons])
      (by norm_num [selRow, List.indexOf_cons])
      (by norm_num [selRow, List.indexOf_cons])
      (by norm_num [iselRow, iselIdx])
      (by norm_num [iselRow, iselIdx])
    norm_num [List.indexOf_cons, iselIdx, lapse1, hdemo] at hmain
    exact hmain
  · have hmain := C4_fill_formula.2 hdemo [1000, 30, 10]
      ⟨[10, 30, 1000], [[some 210], [none], [some 290]]⟩ 1 0 290
      (by norm_num)
      (by norm_num [List.indexOf_cons])
      (by norm_num [selRow, List.indexOf_cons])
      (by norm_num [selRow, List.indexOf_cons])
      (by norm_num [selRow, iselIdx, List.indexOf_cons])
      (by norm_num [selRow, iselIdx, List.indexOf_cons])
    norm_num [List.indexOf_cons, iselIdx, lapse2, hdemo] at hmain
    exact hmain

/-- Claim C5 as stated is false on the code: for levels `[1000, 500, 100]` with
values `[290, missing, missing]` (ascending storage), the top-down pass does
NOT fill 500 hPa from the 1000 hPa level: ascending iteration processes
100 hPa first (step 0, seeded via the wrapped index from the 1000 hPa row with
lapse 0), then fills 500 hPa from the just-filled 100 hPa row.  The value
written at 500 hPa is `2890`, not `290 + (h 1000 - h 500) * 6.5 = -2960`. -/
theorem C5_counterexample_iteration_order :
    cell (ext_temperature hdemo ⟨[100, 500, 1000], [[none], [none], [some 290]]⟩
      [1000, 500, 100]) 1 0 = some 2890
    ∧ (2890 : ℚ) ≠ 290 + (hdemo 1000 - hdemo 500) * 6.5 := by
  constructor
  · have hrun : ext_temperature hdemo
        ⟨[100, 500, 1000], [[none], [none], [some 290]]⟩ [1000, 500, 100]
        = ⟨[100, 500, 1000], [[some 290], [some 2890], [some 290]]⟩ := by
      norm_num [ext_temperature, pass1, pass2, sortAsc, insertAsc, pass1Step,
        pass2Step, hasNaN, selRow, iselRow, iselIdx, fillRow, lapse1, lapse2,
        sentinel, hdemo, List.indexOf_cons, List.range_succ]
    rw [hrun]
    rfl
  · norm_num [hdemo]

/-- Claim C5 (corrected): extrapolation does propagate cumulatively within the
top-down pass, but in ascending-pressure order: on `[1000, 500, 100]` hPa with
values `[290, missing, missing]`, step 0 fills 100 hPa (from the wrapped last
row, 1000 hPa, with the tropopause lapse 0 of 100 hPa's band, giving 290), and
step 1 then fills 500 hPa from the newly filled 100 hPa row using lapse 6.5 —
the seed read at step `i` is the row at position `i-1` including values
written earlier in the same pass. -/
theorem C5_amended_cumulative :
    ext_temperature hdemo ⟨[100, 500, 1000], [[none], [none], [some 290]]⟩
      [1000, 500, 100]
      = ⟨[100, 500, 1000], [[some 290], [some 2890], [some 290]]⟩
    ∧ (2890 : ℚ) = 290 + (hdemo 100 - hdemo 500) * lapse1 500
    ∧ (290 : ℚ) = 290 + (hdemo 1000 - hdemo 100) * lapse1 100 := by
  refine ⟨?_, by norm_num [hdemo, lapse1], by norm_num [hdemo, lapse1]⟩
  norm_num [ext_temperature, pass1, pass2, sortAsc, insertAsc, pass1Step,
    pass2Step, hasNaN, selRow, iselRow, iselIdx, fillRow, lapse1, lapse2,
    sentinel, hdemo, List.indexOf_cons, List.range_succ]

/-- Claim C10 (confirmed): the top-down pass reads its seed positionally
(`isel` with `i-1`) while iterating sorted labels.  (a) When the stored level
order is exactly the ascending-sorted list (with distinct levels), the seed at
step `i ≥ 1` is the row of sorted level `i-1`, the adjacent higher-altitude
level.  (b) For a non-ascending storage order the seed is not the adjacent
level: with storage `[1000, 100, 500]` the gap at 500 hPa is filled from the
1000 hPa row (value `-2950`), not from the adjacent 100 hPa row (which would
give `200 + (h 100 - h 500) * 6.5 = 2800`). -/
theorem C10_positional_seed :
    (∀ (h : ℚ → ℚ) (plevs : List ℚ) (F : TField) (i : Nat),
      F.levels = sortAsc plevs →
      (sortAsc plevs).Nodup →
      F.data.length = (sortAsc plevs).length →
      1 ≤ i → i < (sortAsc plevs).length →
      hasNaN (selRow F ((sortAsc plevs).getD i 0)) = true →
      50 < (sortAsc plevs).getD i 0 →
      pass1Step h (sortAsc plevs) F i
        = { F with
              data := F.data.set i
                (fillRow (lapse1 ((sortAsc plevs).getD i 0))
                  (h ((sortAsc plevs).getD (i-1) 0)
                    - h ((sortAsc plevs).getD i 0))
                  (selRow F ((sortAsc plevs).getD i 0))
                  (selRow F ((sortAsc plevs).getD (i-1) 0))) })
    ∧ ext_temperature hdemo ⟨[1000, 100, 500], [[some 300], [some 200], [none]]⟩
        [100, 500, 1000]
      = ⟨[1000, 100, 500], [[some 300], [some 200], [some (-2950)]]⟩
    ∧ (-2950 : ℚ) ≠ 200 + (hdemo 100 - hdemo 500) * lapse1 500 := by
  refine ⟨?_, ?_, by norm_num [hdemo, lapse1]⟩
  · intro h plevs F i hlev hnd hlen h1i hilen hNaN h50
    rw [pass1Step_of_gate h (sortAsc plevs) F i ⟨hNaN, h50⟩]
    have hidx : F.levels.indexOf ((sortAsc plevs).getD i 0) = i := by
      rw [hlev]
      exact indexOf_getD_of_nodup _ hnd i hilen
    have hisel : iselIdx F.data.length i = i - 1 := by
      rw [iselIdx, if_neg (by omega)]
    have hidx' : F.levels.indexOf ((sortAsc plevs).getD (i-1) 0) = i - 1 := by
      rw [hlev]
      exact indexOf_getD_of_nodup _ hnd (i-1) (by omega)
    rw [hidx, hisel]
    have hlevget : F.levels.getD (i-1) 0 = (sortAsc plevs).getD (i-1) 0 := by
      rw [hlev]
    have hrows : iselRow F (i-1) = selRow F ((sortAsc plevs).getD (i-1) 0) := by
      rw [iselRow, selRow, hidx']
    rw [hlevget, hrows]
  · norm_num [ext_temperature, pass1, pass2, sortAsc, insertAsc, pass1Step,
      pass2Step, hasNaN, selRow, iselRow, iselIdx, fillRow, lapse1, lapse2,
      sentinel, hdemo, List.indexOf_cons, List.range_succ]

theorem C10_positional_seed_witness :
    pass1Step hdemo (sortAsc [100, 500, 1000])
      ⟨[100, 500, 1000], [[some 7], [none], [some 2]]⟩ 1
      = ⟨[100, 500, 1000], [[some 7], [some 2607], [some 2]]⟩ := by
  have hsort : sortAsc [100, 500, 1000] = [100, 500, 1000] := by
    norm_num [sortAsc, insertAsc]
  have hmain := C10_positional_seed.1 hdemo [100, 500, 1000]
    ⟨[100, 500, 1000], [[some 7], [none], [some 2]]⟩ 1
    (by rw [hsort]) (by rw [hsort]; norm_num) (by rw [hsort]; rfl)
    (by norm_num) (by rw [hsort]; norm_num)
    (by rw [hsort]; norm_num [selRow, hasNaN, List.indexOf_cons])
    (by rw [hsort]; norm_num)
  rw [hmain, hsort]
  norm_num [selRow, fillRow, lapse1, sentinel, hdemo, List.indexOf_cons]

/-- Writing one row with `fillRow` keeps every cell that currently holds a
value different from the sentinel. -/
theorem cell_preserved_set (G : TField) (m li : Nat) (lapse dh : ℚ)
    (seed : List (Option ℚ)) (g3 : ∀ r ∈ G.data, r.length = m)
    (hseedlen : seed.length = m) (hli : li < G.data.length) :
    ∀ l c (v : ℚ), cell G l c = some v → v ≠ sentinel →
      cell { G with
              data := G.data.set li (fillRow lapse dh (G.data.getD li []) seed) }
        l c = some v := by
  intro l c v hv hvs
  simp only [cell] at hv ⊢
  by_cases hl : li = l
  · subst hl
    rw [getD_set_self _ _ _ _ hli]
    refine fillRow_getD_keep lapse dh _ seed c v hv hvs ?_
    have hcm : c < (G.data.getD li []).length :=
      lt_length_of_getD_ne _ c none (by rw [hv]; simp)
    rw [g3 _ (getD_mem _ _ _ hli)] at hcm
    rw [hseedlen]
    exact hcm
  · rw [getD_set_ne _ _ _ _ _ hl]
    exact hv

/-- Writing one row with `fillRow` keeps all rows at the uniform width. -/
theorem rows_preserved_set (G : TField) (m li : Nat) (lapse dh : ℚ)
    (seed : List (Option ℚ)) (g3 : ∀ r ∈ G.data, r.length = m)
    (hseedlen : seed.length = m) (hli : li < G.data.length) :
    ∀ r ∈ G.data.set li (fillRow lapse dh (G.data.getD li []) seed),
      r.length = m := by
  intro r hr
  rcases List.mem_or_eq_of_mem_set hr with hm | he
  · exact g3 r hm
  · subst he
    rw [fillRow_length, g3 _ (getD_mem _ _ _ hli), hseedlen]
    exact Nat.min_self m

/-- Claim C6 as stated is false on the code: a present cell can be rewritten.
The sentinel trick (`fillna(-99999)` followed by `dummy == -99999` tests)
cannot distinguish a missing cell from a present cell whose value is exactly
`-99999`: at 1000 hPa the cell at horizontal position 1 is present with value
`-99999` before the call, and holds `6100` afterwards. -/
theorem C6_counterexample_sentinel :
    cell ⟨[100, 1000], [[some 250, some 250], [none, some (-99999)]]⟩ 1 1
      = some (-99999)
    ∧ cell (ext_temperature hdemo
        ⟨[100, 1000], [[some 250, some 250], [none, some (-99999)]]⟩
        [100, 1000]) 1 1 = some 6100
    ∧ (6100 : ℚ) ≠ -99999 := by
  refine ⟨rfl, ?_, by norm_num⟩
  have hrun : ext_temperature hdemo
      ⟨[100, 1000], [[some 250, some 250], [none, some (-99999)]]⟩ [100, 1000]
      = ⟨[100, 1000], [[some 250, some 250], [some 6100, some 6100]]⟩ := by
    norm_num [ext_temperature, pass1, pass2, sortAsc, insertAsc, pass1Step,
      pass2Step, hasNaN, selRow, iselRow, iselIdx, fillRow, lapse1, lapse2,
      sentinel, hdemo, List.indexOf_cons, List.range_succ]
  rw [hrun]
  rfl

/-- Claim C6 (corrected): every cell holding a present value different from
the sentinel `-99999` before `ext_temperature` runs holds the identical value
afterwards; only missing cells — and present cells whose value collides with
the sentinel — can be written.  (Shape hypotheses: rows have one uniform
width, the supplied levels occur in the stored coordinate, and there are no
more supplied levels than stored rows, as holds for any slab the script
builds.) -/
theorem C6_amended_preservation (h : ℚ → ℚ) (F : TField) (plevs : List ℚ)
    (m : Nat)
    (Hlen : F.data.length = F.levels.length)
    (Hrows : ∀ r ∈ F.data, r.length = m)
    (Hsub : ∀ p ∈ plevs, p ∈ F.levels)
    (Hle : plevs.length ≤ F.data.length) :
    ∀ l c (v : ℚ), cell F l c = some v → v ≠ sentinel →
      cell (ext_temperature h F plevs) l c = some v := by
  have hps : (sortAsc plevs).length ≤ F.data.length := by
    rw [length_sortAsc]
    exact Hle
  have step1 : ∀ k G, k < (sortAsc plevs).length →
      (G.levels = F.levels ∧ G.data.length = F.data.length ∧
        (∀ r ∈ G.data, r.length = m) ∧
        (∀ l c (v : ℚ), cell F l c = some v → v ≠ sentinel →
          cell G l c = some v)) →
      ((pass1Step h (sortAsc plevs) G k).levels = F.levels ∧
        (pass1Step h (sortAsc plevs) G k).data.length = F.data.length ∧
        (∀ r ∈ (pass1Step h (sortAsc plevs) G k).data, r.length = m) ∧
        (∀ l c (v : ℚ), cell F l c = some v → v ≠ sentinel →
          cell (pass1Step h (sortAsc plevs) G k) l c = some v)) := by
    intro k G hk hQ
    obtain ⟨g1, g2, g3, g4⟩ := hQ
    by_cases hg : hasNaN (selRow G ((sortAsc plevs).getD k 0)) = true ∧
        50 < (sortAsc plevs).getD k 0
    · rw [pass1Step_of_gate h (sortAsc plevs) G k hg]
      have hlevmem : (sortAsc plevs).getD k 0 ∈ G.levels := by
        rw [g1]
        exact Hsub _ (mem_sortAsc.mp (getD_mem _ _ _ hk))
      have hlevlen : G.levels.length = G.data.length := by
        rw [g1, g2, Hlen]
      have hli : G.levels.indexOf ((sortAsc plevs).getD k 0) < G.data.length := by
        rw [← hlevlen]
        exact List.indexOf_lt_length.mpr hlevmem
      have hsi : iselIdx G.data.length k < G.data.length := by
        rw [iselIdx]
        split
        · omega
        · have hk' : k < (sortAsc plevs).length := hk
          omega
      have hseedlen : (iselRow G (iselIdx G.data.length k)).length = m := by
        rw [iselRow]
        exact g3 _ (getD_mem _ _ _ hsi)
      simp only [selRow, iselRow]
      exact ⟨g1, by simpa using g2,
        rows_preserved_set G m _ _ _ _ g3 hseedlen hli,
        fun l c v hv hvs =>
          cell_preserved_set G m _ _ _ _ g3 hseedlen hli l c v
            (g4 l c v hv hvs) hvs⟩
    · rw [pass1Step_of_not h (sortAsc plevs) G k hg]
      exact ⟨g1, g2, g3, g4⟩
  have step2 : ∀ k G, k < (sortAsc plevs).reverse.length →
      (G.levels = F.levels ∧ G.data.length = F.data.length ∧
        (∀ r ∈ G.data, r.length = m) ∧
        (∀ l c (v : ℚ), cell F l c = some v → v ≠ sentinel →
          cell G l c = some v)) →
      ((pass2Step h (sortAsc plevs).reverse G k).levels = F.levels ∧
        (pass2Step h (sortAsc plevs).reverse G k).data.length = F.data.length ∧
        (∀ r ∈ (pass2Step h (sortAsc plevs).reverse G k).data, r.length = m) ∧
        (∀ l c (v : ℚ), cell F l c = some v → v ≠ sentinel →
          cell (pass2Step h (sortAsc plevs).reverse G k) l c = some v)) := by
    intro k G hk hQ
    obtain ⟨g1, g2, g3, g4⟩ := hQ
    by_cases hg : hasNaN (selRow G ((sortAsc plevs).reverse.getD k 0)) = true ∧
        (sortAsc plevs).reverse.getD k 0 < 50
    · rw [pass2Step_of_gate h (sortAsc plevs).reverse G k hg]
      have hmemrev : ∀ j, j < (sortAsc plevs).reverse.length →
          (sortAsc plevs).reverse.getD j 0 ∈ G.levels := by
        intro j hj
        rw [g1]
        exact Hsub _ (mem_sortAsc.mp
          (List.mem_reverse.mp (getD_mem _ _ _ hj)))
      have hlevlen : G.levels.length = G.data.length := by
        rw [g1, g2, Hlen]
      have hli : G.levels.indexOf ((sortAsc plevs).reverse.getD k 0)
          < G.data.length := by
        rw [← hlevlen]
        exact List.indexOf_lt_length.mpr (hmemrev k hk)
      have hbi : iselIdx (sortAsc plevs).reverse.length k
          < (sortAsc plevs).reverse.length := by
        rw [iselIdx]
        split
        · omega
        · omega
      have hlib : G.levels.indexOf
          ((sortAsc plevs).reverse.getD (iselIdx (sortAsc plevs).reverse.length k) 0)
          < G.data.length := by
        rw [← hlevlen]
        exact List.indexOf_lt_length.mpr (hmemrev _ hbi)
      have hseedlen : (selRow G
          ((sortAsc plevs).reverse.getD
            (iselIdx (sortAsc plevs).reverse.length k) 0)).length = m := by
        rw [selRow]
        exact g3 _ (getD_mem _ _ _ hlib)
      simp only [selRow] at hseedlen ⊢
      exact ⟨g1, by simpa using g2,
        rows_preserved_set G m _ _ _ _ g3 hseedlen hli,
        fun l c v hv hvs =>
          cell_preserved_set G m _ _ _ _ g3 hseedlen hli l c v
            (g4 l c v hv hvs) hvs⟩
    · rw [pass2Step_of_not h (sortAsc plevs).reverse G k hg]
      exact ⟨g1, g2, g3, g4⟩
  have HP1 := foldl_range_inv (pass1Step h (sortAsc plevs))
    (fun _ G => G.levels = F.levels ∧ G.data.length = F.data.length ∧
      (∀ r ∈ G.data, r.length = m) ∧
      (∀ l c (v : ℚ), cell F l c = some v → v ≠ sentinel →
        cell G l c = some v))
    (sortAsc plevs).length F
    ⟨rfl, rfl, Hrows, fun l c v hv _ => hv⟩
    (fun k t hk ht => step1 k t hk ht)
  have HP2 := foldl_range_inv (pass2Step h (sortAsc plevs).reverse)
    (fun _ G => G.levels = F.levels ∧ G.data.length = F.data.length ∧
      (∀ r ∈ G.data, r.length = m) ∧
      (∀ l c (v : ℚ), cell F l c = some v → v ≠ sentinel →
        cell G l c = some v))
    (sortAsc plevs).reverse.length (pass1 h (sortAsc plevs) F)
    HP1
    (fun k t hk ht => step2 k t hk ht)
  exact fun l c v hv hvs => HP2.2.2.2 l c v hv hvs

theorem C6_amended_preservation_witness :
    cell (ext_temperature hdemo ⟨[100, 1000], [[some 250], [none]]⟩ [100, 1000])
      0 0 = some 250 :=
  C6_amended_preservation hdemo ⟨[100, 1000], [[some 250], [none]]⟩ [100, 1000] 1
    rfl (by simp) (by simp) (by norm_num) 0 0 250 rfl (by norm_num [sentinel])

/-- Claim C1 as stated is false on the code: a middle gap at exactly 50 hPa
with both adjacent levels present is skipped by BOTH passes (the top-down pass
requires pressure strictly above 50 hPa, the bottom-up pass strictly below),
so it stays missing. -/
theorem C1_counterexample_gap_at_50 :
    ext_temperature hdemo ⟨[30, 50, 100], [[some 200], [none], [some 250]]⟩
      [30, 50, 100]
      = ⟨[30, 50, 100], [[some 200], [none], [some 250]]⟩
    ∧ cell (ext_temperature hdemo
        ⟨[30, 50, 100], [[some 200], [none], [some 250]]⟩ [30, 50, 100]) 1 0
      = none := by
  have hrun : ext_temperature hdemo
      ⟨[30, 50, 100], [[some 200], [none], [some 250]]⟩ [30, 50, 100]
      = ⟨[30, 50, 100], [[some 200], [none], [some 250]]⟩ := by
    norm_num [ext_temperature, pass1, pass2, sortAsc, insertAsc, pass1Step,
      pass2Step, hasNaN, selRow, iselRow, iselIdx, fillRow, lapse1, lapse2,
      sentinel, hdemo, List.indexOf_cons, List.range_succ]
  exact ⟨hrun, by rw [hrun]; rfl⟩

/-- Completeness of the two sweeps over an arbitrary level list `ps` stored in
that exact order: if the stored levels are distinct, rows are uniform, no
present value collides with the sentinel, and every missing cell lies strictly
inside the level range with both neighbouring cells present and a level
pressure different from 50 hPa, then after the top-down and bottom-up sweeps
every cell is present. -/
theorem completeness_aux (h : ℚ → ℚ) (F : TField) (ps : List ℚ) (m : Nat)
    (Hlev : F.levels = ps)
    (Hnd : ps.Nodup)
    (Hn : F.data.length = ps.length)
    (Hrows : ∀ r ∈ F.data, r.length = m)
    (Hsent : ∀ l c, l < F.data.length → c < m → cell F l c ≠ some sentinel)
    (Hadj : ∀ l c, l < F.data.length → c < m → cell F l c = none →
      0 < l ∧ l + 1 < F.data.length ∧ (cell F (l-1) c).isSome ∧
      (cell F (l+1) c).isSome ∧ ps.getD l 0 ≠ 50) :
    ∀ l c, l < F.data.length → c < m →
      (cell (pass2 h ps.reverse (pass1 h ps F)) l c).isSome := by
  -- the invariant carried through the top-down sweep
  have step1 : ∀ k G, k < ps.length →
      (G.levels = ps ∧ G.data.length = ps.length ∧
        (∀ r ∈ G.data, r.length = m) ∧
        (∀ l, k ≤ l → G.data.getD l [] = F.data.getD l []) ∧
        (∀ l, ps.getD l 0 ≤ 50 → G.data.getD l [] = F.data.getD l []) ∧
        (∀ l c (v : ℚ), cell F l c = some v → cell G l c = some v) ∧
        (∀ l c, l < k → c < m → 50 < ps.getD l 0 → (cell G l c).isSome)) →
      ((pass1Step h ps G k).levels = ps ∧
        (pass1Step h ps G k).data.length = ps.length ∧
        (∀ r ∈ (pass1Step h ps G k).data, r.length = m) ∧
        (∀ l, k + 1 ≤ l →
          (pass1Step h ps G k).data.getD l [] = F.data.getD l []) ∧
        (∀ l, ps.getD l 0 ≤ 50 →
          (pass1Step h ps G k).data.getD l [] = F.data.getD l []) ∧
        (∀ l c (v : ℚ), cell F l c = some v →
          cell (pass1Step h ps G k) l c = some v) ∧
        (∀ l c, l < k + 1 → c < m → 50 < ps.getD l 0 →
          (cell (pass1Step h ps G k) l c).isSome)) := by
    intro k G hk hI
    obtain ⟨g1, g2, g3, g4, g5, g6, g7⟩ := hI
    have hkF : k < F.data.length := by rw [Hn]; exact hk
    have hliEq : G.levels.indexOf (ps.getD k 0) = k := by
      rw [g1]
      exact indexOf_getD_of_nodup ps Hnd k hk
    have hrowG : G.data.getD k [] = F.data.getD k [] := g4 k le_rfl
    have hrowlenF : (F.data.getD k []).length = m :=
      Hrows _ (getD_mem _ _ _ hkF)
    have hselEq : selRow G (ps.getD k 0) = F.data.getD k [] := by
      rw [selRow, hliEq, hrowG]
    by_cases hg : hasNaN (selRow G (ps.getD k 0)) = true ∧ 50 < ps.getD k 0
    · -- the guard fires: the row of level k is overwritten
      have h50 : 50 < ps.getD k 0 := hg.2
      have hsi : iselIdx G.data.length k < G.data.length := by
        rw [iselIdx]
        split <;> omega
      have hseedlen : (iselRow G (iselIdx G.data.length k)).length = m := by
        rw [iselRow]
        exact g3 _ (getD_mem _ _ _ hsi)
      have hXfull : ∀ c, c < m →
          ((fillRow (lapse1 (ps.getD k 0))
            (h (G.levels.getD (iselIdx G.data.length k) 0) - h (ps.getD k 0))
            (selRow G (ps.getD k 0))
            (iselRow G (iselIdx G.data.length k))).getD c none).isSome := by
        intro c hcm
        rw [hselEq]
        cases hFc : (F.data.getD k []).getD c none with
        | some v =>
            have hvs : v ≠ sentinel := by
              intro hEq
              exact Hsent k c hkF hcm (by simp only [cell]; rw [hFc, hEq])
            rw [fillRow_getD_keep _ _ _ _ c v hFc hvs
              (by rw [hseedlen]; exact hcm)]
            rfl
        | none =>
            have hcF : cell F k c = none := by simp only [cell]; rw [hFc]
            obtain ⟨hk0, hk1, hprev, -, -⟩ := Hadj k c hkF hcm hcF
            have hsiEq : iselIdx G.data.length k = k - 1 := by
              rw [iselIdx, if_neg (by omega)]
            obtain ⟨w, hw⟩ := Option.isSome_iff_exists.mp hprev
            have hseedc :
                (iselRow G (iselIdx G.data.length k)).getD c none = some w := by
              rw [iselRow, hsiEq]
              have hGw := g6 (k-1) c w hw
              simp only [cell] at hGw
              exact hGw
            rw [fillRow_getD_fill _ _ _ _ c (by rw [hrowlenF]; exact hcm)
              (by rw [hseedlen]; exact hcm) (by rw [hFc]; rfl), hseedc]
            rfl
      have hXlen :
          (fillRow (lapse1 (ps.getD k 0))
            (h (G.levels.getD (iselIdx G.data.length k) 0) - h (ps.getD k 0))
            (selRow G (ps.getD k 0))
            (iselRow G (iselIdx G.data.length k))).length = m := by
        rw [fillRow_length, hselEq, hrowlenF, hseedlen]
        exact Nat.min_self m
      rw [pass1Step_of_gate h ps G k hg, hliEq]
      have hkG : k < G.data.length := by rw [g2]; exact hk
      refine ⟨g1, by simpa using g2, ?_, ?_, ?_, ?_, ?_⟩
      · intro r hr
        rcases List.mem_or_eq_of_mem_set hr with hm | he
        · exact g3 r hm
        · rw [he]
          exact hXlen
      · intro l hl
        rw [getD_set_ne _ _ _ _ _ (by omega)]
        exact g4 l (by omega)
      · intro l hl50
        have hlk : k ≠ l := by
          intro hEq
          rw [← hEq] at hl50
          linarith
        rw [getD_set_ne _ _ _ _ _ hlk]
        exact g5 l hl50
      · intro l c v hv
        by_cases hlk : k = l
        · subst hlk
          simp only [cell]
          rw [getD_set_self _ _ _ _ hkG]
          have hvs : v ≠ sentinel := by
            intro hEq
            have hcm : c < m := by
              have := lt_length_of_getD_ne (F.data.getD k []) c none
                (by simp only [cell] at hv; rw [hv]; simp)
              rw [hrowlenF] at this
              exact this
            exact Hsent k c hkF hcm (hEq ▸ hv)
          have hFc : (F.data.getD k []).getD c none = some v := by
            simp only [cell] at hv
            exact hv
          rw [hselEq]
          exact fillRow_getD_keep _ _ _ _ c v hFc hvs
            (by
              rw [hseedlen]
              have := lt_length_of_getD_ne (F.data.getD k []) c none
                (by rw [hFc]; simp)
              rw [hrowlenF] at this
              exact this)
        · have := g6 l c v hv
          simp only [cell] at this ⊢
          rw [getD_set_ne _ _ _ _ _ hlk]
          exact this
      · intro l c hlk1 hcm h50l
        by_cases hlk : k = l
        · subst hlk
          simp only [cell]
          rw [getD_set_self _ _ _ _ hkG]
          exact hXfull c hcm
        · simp only [cell]
          rw [getD_set_ne _ _ _ _ _ hlk]
          have hlltk : l < k := by omega
          have := g7 l c hlltk hcm h50l
          simp only [cell] at this
          exact this
    · -- the guard does not fire: the field is unchanged
      rw [pass1Step_of_not h ps G k hg]
      refine ⟨g1, g2, g3, fun l hl => g4 l (by omega), g5, g6, ?_⟩
      intro l c hlk1 hcm h50l
      rcases Nat.lt_or_ge l k with hlt | hge
      · exact g7 l c hlt hcm h50l
      · have hlEq : l = k := by omega
        subst hlEq
        have hNaN : hasNaN (selRow G (ps.getD l 0)) = false := by
          rcases Bool.eq_false_or_eq_true
            (hasNaN (selRow G (ps.getD l 0))) with ht | hf
          · exact absurd ⟨ht, h50l⟩ hg
          · exact hf
        rw [hselEq] at hNaN
        have := getD_isSome_of_hasNaN_false _ c hNaN
          (by rw [hrowlenF]; exact hcm)
        simp only [cell, ← hrowG] at this ⊢
        exact this
  have HP1 := foldl_range_inv (pass1Step h ps)
    (fun k G =>
      G.levels = ps ∧ G.data.length = ps.length ∧
      (∀ r ∈ G.data, r.length = m) ∧
      (∀ l, k ≤ l → G.data.getD l [] = F.data.getD l []) ∧
      (∀ l, ps.getD l 0 ≤ 50 → G.data.getD l [] = F.data.getD l []) ∧
      (∀ l c (v : ℚ), cell F l c = some v → cell G l c = some v) ∧
      (∀ l c, l < k → c < m → 50 < ps.getD l 0 → (cell G l c).isSome))
    ps.length F
    ⟨Hlev, Hn, Hrows, fun _ _ => rfl, fun _ _ => rfl, fun _ _ _ hv => hv,
      fun _ _ hlt _ _ => absurd hlt (Nat.not_lt_zero _)⟩
    step1
  obtain ⟨A1, A2, A3, -, A5, A6, A7⟩ := HP1
  have hfold : List.foldl (pass1Step h ps) F (List.range ps.length)
      = pass1 h ps F := rfl
  rw [hfold] at A1 A2 A3 A5 A6 A7
  -- facts about the state after the top-down sweep
  have hrev : ps.reverse.length = ps.length := List.length_reverse ps
  have base5 : ∀ l, hasNaN ((pass1 h ps F).data.getD l []) = true →
      (pass1 h ps F).data.getD l [] = F.data.getD l [] := by
    intro l hNaN
    rcases Nat.lt_or_ge l ps.length with hl | hge
    · by_cases h50 : 50 < ps.getD l 0
      · exfalso
        have hlenl : ((pass1 h ps F).data.getD l []).length = m :=
          A3 _ (getD_mem _ _ _ (by rw [A2]; exact hl))
        have hfull : hasNaN ((pass1 h ps F).data.getD l []) = false := by
          refine hasNaN_false_of _ fun c hc => ?_
          have hcm : c < m := by rw [hlenl] at hc; exact hc
          have := A7 l c hl hcm h50
          simp only [cell] at this
          exact this
        rw [hfull] at hNaN
        cases hNaN
      · exact A5 l (le_of_not_lt h50)
    · rw [List.getD_eq_default _ _ (by rw [A2]; exact hge)] at hNaN
      cases hNaN
  -- the invariant carried through the bottom-up sweep
  have step2 : ∀ k H, k < ps.reverse.length →
      (H.levels = ps ∧ H.data.length = ps.length ∧
        (∀ r ∈ H.data, r.length = m) ∧
        (∀ l c, (cell (pass1 h ps F) l c).isSome → (cell H l c).isSome) ∧
        (∀ l, hasNaN (H.data.getD l []) = true →
          H.data.getD l [] = F.data.getD l []) ∧
        (∀ l c, ps.length - k ≤ l → l < ps.length → c < m →
          (cell H l c).isSome)) →
      ((pass2Step h ps.reverse H k).levels = ps ∧
        (pass2Step h ps.reverse H k).data.length = ps.length ∧
        (∀ r ∈ (pass2Step h ps.reverse H k).data, r.length = m) ∧
        (∀ l c, (cell (pass1 h ps F) l c).isSome →
          (cell (pass2Step h ps.reverse H k) l c).isSome) ∧
        (∀ l, hasNaN ((pass2Step h ps.reverse H k).data.getD l []) = true →
          (pass2Step h ps.reverse H k).data.getD l [] = F.data.getD l []) ∧
        (∀ l c, ps.length - (k + 1) ≤ l → l < ps.length → c < m →
          (cell (pass2Step h ps.reverse H k) l c).isSome)) := by
    intro k H hk hI
    obtain ⟨g1, g2, g3, g4, g5, g6⟩ := hI
    have hkn : k < ps.length := by rw [← hrev]; exact hk
    have hjn : ps.length - 1 - k < ps.length := by omega
    have hlev : ps.reverse.getD k 0 = ps.getD (ps.length - 1 - k) 0 :=
      getD_reverse ps k hkn
    have hliEq : H.levels.indexOf (ps.reverse.getD k 0) = ps.length - 1 - k := by
      rw [hlev, g1]
      exact indexOf_getD_of_nodup ps Hnd _ hjn
    have hselEq : selRow H (ps.reverse.getD k 0)
        = H.data.getD (ps.length - 1 - k) [] := by
      rw [selRow, hliEq]
    have hrowlenH : (H.data.getD (ps.length - 1 - k) []).length = m :=
      g3 _ (getD_mem _ _ _ (by rw [g2]; exact hjn))
    have hrowlenF : (F.data.getD (ps.length - 1 - k) []).length = m :=
      Hrows _ (getD_mem _ _ _ (by rw [Hn]; exact hjn))
    by_cases hg : hasNaN (selRow H (ps.reverse.getD k 0)) = true ∧
        ps.reverse.getD k 0 < 50
    · -- the guard fires
      obtain ⟨hNaN, h50⟩ := hg
      have hNaN' : hasNaN (H.data.getD (ps.length - 1 - k) []) = true := by
        rw [← hselEq]
        exact hNaN
      have hrowF := g5 _ hNaN'
      obtain ⟨c₀, hc₀l, hc₀⟩ := exists_none_of_hasNaN _ hNaN'
      have hc₀m : c₀ < m := by rw [hrowlenH] at hc₀l; exact hc₀l
      have hcellF0 : cell F (ps.length - 1 - k) c₀ = none := by
        simp only [cell]
        rw [← hrowF]
        exact hc₀
      obtain ⟨hj0, hj1, -, -, -⟩ :=
        Hadj _ c₀ (by rw [Hn]; exact hjn) hc₀m hcellF0
      have hj1' : ps.length - 1 - k + 1 < ps.length := by rw [Hn] at hj1; exact hj1
      have hk1 : 1 ≤ k := by omega
      have hbEq : iselIdx ps.reverse.length k = k - 1 := by
        rw [iselIdx, if_neg (by omega)]
      have hlevb : ps.reverse.getD (k-1) 0
          = ps.getD (ps.length - 1 - k + 1) 0 := by
        have hgd := getD_reverse ps (k-1) (by omega)
        have harg : ps.length - 1 - (k-1) = ps.length - 1 - k + 1 := by omega
        rw [harg] at hgd
        exact hgd
      have hlibEq : H.levels.indexOf
          (ps.reverse.getD (iselIdx ps.reverse.length k) 0)
          = ps.length - 1 - k + 1 := by
        rw [hbEq, hlevb, g1]
        exact indexOf_getD_of_nodup ps Hnd _ hj1'
      have hseedEq : selRow H (ps.reverse.getD (iselIdx ps.reverse.length k) 0)
          = H.data.getD (ps.length - 1 - k + 1) [] := by
        rw [selRow, hlibEq]
      have hseedlen : (H.data.getD (ps.length - 1 - k + 1) []).length = m :=
        g3 _ (getD_mem _ _ _ (by rw [g2]; exact hj1'))
      have hXfull : ∀ c, c < m →
          ((fillRow (lapse2 (ps.reverse.getD k 0))
            (h (ps.reverse.getD (iselIdx ps.reverse.length k) 0)
              - h (ps.reverse.getD k 0))
            (selRow H (ps.reverse.getD k 0))
            (selRow H (ps.reverse.getD (iselIdx ps.reverse.length k) 0))
            ).getD c none).isSome := by
        intro c hcm
        rw [hselEq, hseedEq, hrowF]
        cases hFc : (F.data.getD (ps.length - 1 - k) []).getD c none with
        | some v =>
            have hvs : v ≠ sentinel := by
              intro hEq
              exact Hsent _ c (by rw [Hn]; exact hjn) hcm
                (by simp only [cell]; rw [hFc, hEq])
            rw [fillRow_getD_keep _ _ _ _ c v hFc hvs
              (by rw [hseedlen]; exact hcm)]
            rfl
        | none =>
            have hcF : cell F (ps.length - 1 - k) c = none := by
              simp only [cell]
              rw [hFc]
            obtain ⟨-, -, -, hnx, -⟩ :=
              Hadj _ c (by rw [Hn]; exact hjn) hcm hcF
            obtain ⟨w, hw⟩ := Option.isSome_iff_exists.mp hnx
            have hG1 := A6 _ c w hw
            have hH : (cell H (ps.length - 1 - k + 1) c).isSome :=
              g4 _ c (by rw [hG1]; rfl)
            obtain ⟨w', hw'⟩ := Option.isSome_iff_exists.mp hH
            simp only [cell] at hw'
            rw [fillRow_getD_fill _ _ _ _ c (by rw [hrowlenF]; exact hcm)
              (by rw [hseedlen]; exact hcm) (by rw [hFc]; rfl), hw']
            rfl
      have hXlen :
          (fillRow (lapse2 (ps.reverse.getD k 0))
            (h (ps.reverse.getD (iselIdx ps.reverse.length k) 0)
              - h (ps.reverse.getD k 0))
            (selRow H (ps.reverse.getD k 0))
            (selRow H (ps.reverse.getD (iselIdx ps.reverse.length k) 0))
            ).length = m := by
        rw [fillRow_length, hselEq, hseedEq, hrowlenH, hseedlen]
        exact Nat.min_self m
      rw [pass2Step_of_gate h ps.reverse H k ⟨hNaN, h50⟩, hliEq]
      have hjG : ps.length - 1 - k < H.data.length := by rw [g2]; exact hjn
      refine ⟨g1, by simpa using g2, ?_, ?_, ?_, ?_⟩
      · intro r hr
        rcases List.mem_or_eq_of_mem_set hr with hm | he
        · exact g3 r hm
        · rw [he]
          exact hXlen
      · intro l c hIs
        by_cases hlj : ps.length - 1 - k = l
        · simp only [cell]
          rw [← hlj, getD_set_self _ _ _ _ hjG]
          have hcm : c < m := by
            have hlen1 : ((pass1 h ps F).data.getD l []).length = m :=
              A3 _ (getD_mem _ _ _
                (by rw [A2, ← hlj]; exact hjn))
            have := lt_length_of_getD_ne ((pass1 h ps F).data.getD l []) c none
              (by
                simp only [cell] at hIs
                intro hEq
                rw [hEq] at hIs
                simp at hIs)
            rw [hlen1] at this
            exact this
          exact hXfull c hcm
        · simp only [cell]
          rw [getD_set_ne _ _ _ _ _ hlj]
          have := g4 l c hIs
          simp only [cell] at this
          exact this
      · intro l hNaNl
        by_cases hlj : ps.length - 1 - k = l
        · exfalso
          rw [← hlj] at hNaNl
          rw [getD_set_self _ _ _ _ hjG] at hNaNl
          have hfull : hasNaN
              (fillRow (lapse2 (ps.reverse.getD k 0))
                (h (ps.reverse.getD (iselIdx ps.reverse.length k) 0)
                  - h (ps.reverse.getD k 0))
                (selRow H (ps.reverse.getD k 0))
                (selRow H (ps.reverse.getD (iselIdx ps.reverse.length k) 0))
                ) = false := by
            refine hasNaN_false_of _ fun c hc => ?_
            rw [hXlen] at hc
            exact hXfull c hc
          rw [hfull] at hNaNl
          cases hNaNl
        · rw [getD_set_ne _ _ _ _ _ hlj] at hNaNl ⊢
          exact g5 l hNaNl
      · intro l c hl1 hl2 hcm
        by_cases hlj : ps.length - 1 - k = l
        · simp only [cell]
          rw [← hlj, getD_set_self _ _ _ _ hjG]
          exact hXfull c hcm
        · simp only [cell]
          rw [getD_set_ne _ _ _ _ _ hlj]
          have hge : ps.length - k ≤ l := by omega
          have := g6 l c hge hl2 hcm
          simp only [cell] at this
          exact this
    · -- the guard does not fire
      rw [pass2Step_of_not h ps.reverse H k hg]
      refine ⟨g1, g2, g3, g4, g5, ?_⟩
      intro l c hl1 hl2 hcm
      rcases le_or_lt (ps.length - k) l with hge | hlt
      · exact g6 l c hge hl2 hcm
      · have hlj : l = ps.length - 1 - k := by omega
        subst hlj
        by_cases hNaN : hasNaN (H.data.getD (ps.length - 1 - k) []) = true
        · exfalso
          have hrowF := g5 _ hNaN
          obtain ⟨c₀, hc₀l, hc₀⟩ := exists_none_of_hasNaN _ hNaN
          have hc₀m : c₀ < m := by rw [hrowlenH] at hc₀l; exact hc₀l
          have hcellF0 : cell F (ps.length - 1 - k) c₀ = none := by
            simp only [cell]
            rw [← hrowF]
            exact hc₀
          obtain ⟨-, -, -, -, hne50⟩ :=
            Hadj _ c₀ (by rw [Hn]; exact hjn) hc₀m hcellF0
          have h50le : ¬ (ps.reverse.getD k 0 < 50) := by
            intro hlt50
            exact hg ⟨(by rw [hselEq]; exact hNaN), hlt50⟩
          rw [hlev] at h50le
          have h50lt : 50 < ps.getD (ps.length - 1 - k) 0 :=
            lt_of_le_of_ne (le_of_not_lt h50le) (Ne.symm hne50)
          have hIs := g4 _ c₀ (A7 _ c₀ hjn hc₀m h50lt)
          simp only [cell] at hIs
          rw [hc₀] at hIs
          simp at hIs
        · have hNaNf : hasNaN (H.data.getD (ps.length - 1 - k) []) = false := by
            rcases Bool.eq_false_or_eq_true
              (hasNaN (H.data.getD (ps.length - 1 - k) [])) with ht | hf
            · exact absurd ht hNaN
            · exact hf
          have := getD_isSome_of_hasNaN_false _ c hNaNf
            (by rw [hrowlenH]; exact hcm)
          simp only [cell]
          exact this
  have HP2 := foldl_range_inv (pass2Step h ps.reverse)
    (fun k H =>
      H.levels = ps ∧ H.data.length = ps.length ∧
      (∀ r ∈ H.data, r.length = m) ∧
      (∀ l c, (cell (pass1 h ps F) l c).isSome → (cell H l c).isSome) ∧
      (∀ l, hasNaN (H.data.getD l []) = true →
        H.data.getD l [] = F.data.getD l []) ∧
      (∀ l c, ps.length - k ≤ l → l < ps.length → c < m →
        (cell H l c).isSome))
    ps.reverse.length (pass1 h ps F)
    ⟨A1, A2, A3, fun _ _ hv => hv, base5,
      fun l c h0 hl _ => absurd hl (by omega)⟩
    step2
  intro l c hl hc
  have hlps : l < ps.length := by rw [← Hn]; exact hl
  exact HP2.2.2.2.2.2 l c (by omega) hlps hc

/-- Claim C1 (corrected): with ascending storage matching the sorted supplied
levels (distinct), uniform rows, no present value equal to the sentinel, and
every gap strictly inside the level range with both adjacent cells present AND
a level pressure different from 50 hPa, the two passes leave zero missing
cells.  The 50 hPa exclusion is forced: a gap at exactly 50 hPa is skipped by
both passes (see the counterexample). -/
theorem C1_amended_completeness (h : ℚ → ℚ) (F : TField) (plevs : List ℚ)
    (m : Nat)
    (Hlev : F.levels = sortAsc plevs)
    (Hnd : (sortAsc plevs).Nodup)
    (Hn : F.data.length = (sortAsc plevs).length)
    (Hrows : ∀ r ∈ F.data, r.length = m)
    (Hsent : ∀ l c, l < F.data.length → c < m → cell F l c ≠ some sentinel)
    (Hadj : ∀ l c, l < F.data.length → c < m → cell F l c = none →
      0 < l ∧ l + 1 < F.data.length ∧ (cell F (l-1) c).isSome ∧
      (cell F (l+1) c).isSome ∧ (sortAsc plevs).getD l 0 ≠ 50) :
    ∀ l c, l < F.data.length → c < m →
      (cell (ext_temperature h F plevs) l c).isSome :=
  completeness_aux h F (sortAsc plevs) m Hlev Hnd Hn Hrows Hsent Hadj

theorem C1_amended_completeness_witness :
    (cell (ext_temperature hdemo
      ⟨[30, 100, 1000], [[some 1], [none], [some 2]]⟩ [30, 100, 1000]) 1 0
      ).isSome := by
  have hsort : sortAsc [30, 100, 1000] = [30, 100, 1000] := by
    norm_num [sortAsc, insertAsc]
  exact C1_amended_completeness hdemo
    ⟨[30, 100, 1000], [[some 1], [none], [some 2]]⟩ [30, 100, 1000] 1
    (by rw [hsort])
    (by rw [hsort]; norm_num)
    (by rw [hsort]; rfl)
    (by simp)
    (by
      intro l c hl hc
      norm_num at hl
      obtain rfl : c = 0 := by omega
      interval_cases l
      · norm_num [cell, sentinel]
      · simp [cell]
      · norm_num [cell, sentinel])
    (by
      rw [hsort]
      intro l c hl hc hnone
      norm_num at hl
      obtain rfl : c = 0 := by omega
      interval_cases l <;> simp_all [cell])
    1 0 (by norm_num) (by norm_num)

end ToLorenz
